import Mathlib

/-!
Verification of the l3bin ISIN binning grid engine.

The Rust sources define an integerized sinusoidal grid: a per-row table
(`basebin`, `numbin`, `latbin`, `totbin`, `numrows`) built from a row count,
and query operations `lat2row`, `lonlat2bin`, `bin2lonlat`, `bin2bounds`.

Embedding conventions:
- `f64` arithmetic is modelled by exact real arithmetic over `ℝ`.
- `usize` values are modelled by `Nat`; at the single subtraction sites where
  the source can underflow (`numrows - 1`, the binary-search miss `r - 1`,
  and the linear-scan `row -= 1`), the wrap/panic behaviour is modelled
  explicitly (`wsub`, guarded branches).
- A Rust panic (out-of-bounds index or underflow) is modelled by the
  distinguished outcome `Err.crash` (for the `Result`-returning variant in
  `isin.rs`) or by `none` (for the assert-based variant in `lib.rs`).
- `as usize` applied to a nonnegative `f64` truncates, which is `Nat.floor`;
  for a negative value it saturates at `0`, which is also `Nat.floor`.
-/

namespace L3bin

/-- The `usize` modulus: wrapping arithmetic on 64-bit unsigned integers. -/
def USIZE : Nat := 2 ^ 64

/-- Wrapping `usize` subtraction `a - b` (for `b ≤ USIZE`), as performed by
release-mode Rust at the underflow-prone subtraction sites. -/
def wsub (a b : Nat) : Nat := (a + USIZE - b) % USIZE

/-- From `satellites.rs`: the satellite presets. -/
inductive Satellite where
  | Custom (num_rows : Nat)
  | Czcs
  | Meris
  | Modis
  | Seawifs
  | Sentinel3
  | Viirs

/-- From `satellites.rs`: `Satellite::num_latitude_rows`. -/
def Satellite.num_latitude_rows : Satellite → Nat
  | .Custom num_rows => num_rows
  | .Czcs => 1080
  | .Meris => 2160
  | .Modis => 4320
  | .Seawifs => 2160
  | .Sentinel3 => 4320
  | .Viirs => 4320

/-- Errors of the query operations in `isin.rs`.  The source reports errors as
format strings (or as `IsinError::InvalidBinRange`); each constructor records
exactly the data interpolated into the corresponding message.  `crash` stands
for a Rust panic (out-of-bounds index / usize underflow), which is a separate
channel from the returned errors. -/
inductive Err where
  | crash
  | lonRange (lower upper : ℝ)
  | latRange (lower upper : ℝ)
  | latValue (lat lower upper : ℝ)
  | binRange (max_bin : Nat)

/-- From `isin.rs`: `MIN_LON`. -/
noncomputable def MIN_LON : ℝ := -180
/-- From `isin.rs`: `MAX_LON`. -/
noncomputable def MAX_LON : ℝ := 180
/-- From `isin.rs`: `MIN_LAT`. -/
noncomputable def MIN_LAT : ℝ := -90
/-- From `isin.rs`: `MAX_LAT`. -/
noncomputable def MAX_LAT : ℝ := 90

/-- From `bounds_checker.rs`: `is_vector_within_bounds` — all elements lie in
`[lower_bound, upper_bound]`. -/
noncomputable def is_vector_within_bounds (values : List ℝ) (lower_bound upper_bound : ℝ) : Bool :=
  values.all fun num => decide (lower_bound ≤ num) && decide (num ≤ upper_bound)

/-- Rust vector indexing `v[i]`: panics (`Err.crash`) when out of bounds. -/
def idx {α : Type} (l : List α) (i : Nat) : Except Err α :=
  match l[i]? with
  | some a => .ok a
  | none => .error .crash

/-- The grid table of `isin.rs` / `lib.rs` (`struct Isin`). -/
structure Isin where
  basebin : List Nat
  numbin : List Nat
  latbin : List ℝ
  totbin : Nat
  numrows : Nat

/-- `Isin::new`, latitude of row `row`:
`((row as f64 + 0.5) * 180.0 / numrows as f64) - 90.0`. -/
noncomputable def rowLat (numrows row : Nat) : ℝ :=
  ((row : ℝ) + 0.5) * 180 / (numrows : ℝ) - 90

/-- `Isin::new`, bin count of row `row`:
`(2.0 * numrows as f64 * cos(lat * pi / 180) + 0.5) as usize`. -/
noncomputable def rowNum (numrows row : Nat) : Nat :=
  ⌊2 * (numrows : ℝ) * Real.cos (rowLat numrows row * (Real.pi / 180)) + 0.5⌋₊

/-- `Isin::new`, base bin of row `row`: seeded with `basebin.push(1)` and then
`basebin.push(basebin[row - 1] + numbin[row - 1])` for each later row. -/
noncomputable def basebinVal (numrows : Nat) : Nat → Nat
  | 0 => 1
  | row + 1 => basebinVal numrows row + rowNum numrows row

/-- The `latbin` vector built by the construction loop. -/
noncomputable def latbinList (numrows : Nat) : List ℝ :=
  (List.range numrows).map (rowLat numrows)

/-- The `numbin` vector built by the construction loop. -/
noncomputable def numbinList (numrows : Nat) : List Nat :=
  (List.range numrows).map (rowNum numrows)

/-- The `basebin` vector: one initial push of `1` plus one push per loop
iteration after the first, so its length is `max 1 numrows`. -/
noncomputable def basebinList (numrows : Nat) : List Nat :=
  (List.range (max 1 numrows)).map (basebinVal numrows)

/-- The complete table for a positive row count (the value `Isin::new`
returns whenever it does not panic). -/
noncomputable def mkTable (numrows : Nat) : Isin :=
  { basebin := basebinList numrows
    numbin := numbinList numrows
    latbin := latbinList numrows
    totbin := basebinVal numrows numrows - 1
    numrows := numrows }

/-- From `isin.rs`: `Isin::new(sat)`.  Runs the construction loop and then
computes `totbin = basebin[numrows - 1] + numbin[numrows - 1] - 1`; the
`numrows - 1` is `usize` arithmetic, so for `numrows == 0` it wraps and the
index is out of bounds (a panic, modelled as `none`).  `lib.rs` contains the
textually identical construction taking the row count directly. -/
noncomputable def Isin.new (sat : Satellite) : Option Isin :=
  let numrows := sat.num_latitude_rows
  let basebin := basebinList numrows
  let numbin := numbinList numrows
  let latbin := latbinList numrows
  match basebin[wsub numrows 1]?, numbin[wsub numrows 1]? with
  | some b, some m =>
      some { basebin := basebin, numbin := numbin, latbin := latbin,
             totbin := b + m - 1, numrows := numrows }
  | _, _ => none

/-- From `isin.rs`: `Isin::validate_bins` — every bin id must satisfy
`b >= 1 && b <= totbin`, otherwise `IsinError::InvalidBinRange`. -/
def Isin.validate_bins (g : Isin) (bins : List Nat) : Except Err Unit :=
  if bins.all (fun b => decide (1 ≤ b) && decide (b ≤ g.totbin)) then
    .ok ()
  else
    .error (.binRange g.totbin)

/-- From `isin.rs`: `Isin::lat2row` — validate, then
`row = (90.0 + lat) * numrows as f64 / 180.0` cast `as usize`. -/
noncomputable def Isin.lat2row (g : Isin) (lat : ℝ) : Except Err Nat :=
  if is_vector_within_bounds [lat] MIN_LAT MAX_LAT then
    .ok ⌊(90 + lat) * (g.numrows : ℝ) / 180⌋₊
  else
    .error (.latValue lat MIN_LAT MAX_LAT)

/-- Loop body of `isin.rs` `Isin::lonlat2bin` over the index list
`0..lat.len()`: `row = lat2row(lat[i])?`, proportional column with clamp,
`bin = basebin[row] + col`. -/
noncomputable def Isin.lonlat2binGo (g : Isin) (lon lat : List ℝ) :
    List Nat → Except Err (List Nat)
  | [] => .ok []
  | i :: rest =>
    match idx lat i with
    | .error e => .error e
    | .ok la =>
      match g.lat2row la with
      | .error e => .error e
      | .ok row =>
        match idx lon i with
        | .error e => .error e
        | .ok lo =>
          match idx g.numbin row with
          | .error e => .error e
          | .ok m =>
            let col := ⌊(lo + 180) * ((m : ℝ) / 360)⌋₊
            match (if col ≥ m then
                     (if m = 0 then Except.error Err.crash else Except.ok (m - 1))
                   else Except.ok col : Except Err Nat) with
            | .error e => .error e
            | .ok col2 =>
              match idx g.basebin row with
              | .error e => .error e
              | .ok bb =>
                match g.lonlat2binGo lon lat rest with
                | .error e => .error e
                | .ok bins => .ok ((bb + col2) :: bins)

/-- From `isin.rs`: `Isin::lonlat2bin` — validate the longitude vector, then
the latitude vector, then run the loop. -/
noncomputable def Isin.lonlat2bin (g : Isin) (lon lat : List ℝ) : Except Err (List Nat) :=
  if is_vector_within_bounds lon MIN_LON MAX_LON = false then
    .error (.lonRange MIN_LON MAX_LON)
  else if is_vector_within_bounds lat MIN_LAT MAX_LAT = false then
    .error (.latRange MIN_LAT MAX_LAT)
  else
    g.lonlat2binGo lon lat (List.range lat.length)

/-- Contract of `slice::binary_search` on a sorted slice (library code called
by `isin.rs`): `Ok` at the index of a match, `Err` at the insertion point,
which for a sorted slice is the number of elements smaller than the key. -/
def bsearch (l : List Nat) (x : Nat) : Except Nat Nat :=
  let k := l.countP fun y => decide (y < x)
  if l[k]? = some x then .ok k else .error k

/-- Row lookup of `isin.rs` `bin2lonlat`/`bin2bounds`: exact match gives the
row, otherwise insertion point minus one; the `usize` subtraction `r - 1`
underflows (panics) when the insertion point is `0`. -/
def bsearchRow (basebin : List Nat) (bv : Nat) : Except Err Nat :=
  match bsearch basebin bv with
  | .ok r => .ok r
  | .error r => if r = 0 then .error .crash else .ok (r - 1)

/-- Loop body of `isin.rs` `Isin::bin2lonlat`: clamp the bin value to at least
`1`, find the row by binary search, read the row center. -/
noncomputable def Isin.bin2lonlatGo (g : Isin) : List Nat → Except Err (List (ℝ × ℝ))
  | [] => .ok []
  | b :: rest =>
    let bv := if b < 1 then 1 else b
    match bsearchRow g.basebin bv with
    | .error e => .error e
    | .ok row =>
      match idx g.latbin row with
      | .error e => .error e
      | .ok la =>
        match idx g.basebin row with
        | .error e => .error e
        | .ok bb =>
          match idx g.numbin row with
          | .error e => .error e
          | .ok m =>
            let lo := 360 * ((bv : ℝ) - (bb : ℝ) + 0.5) / (m : ℝ) - 180
            match g.bin2lonlatGo rest with
            | .error e => .error e
            | .ok res => .ok ((lo, la) :: res)

/-- From `isin.rs`: `Isin::bin2lonlat` — `validate_bins` first, then the loop. -/
noncomputable def Isin.bin2lonlat (g : Isin) (bin : List Nat) : Except Err (List (ℝ × ℝ)) :=
  match g.validate_bins bin with
  | .error e => .error e
  | .ok _ => g.bin2lonlatGo bin

/-- Loop body of `isin.rs` `Isin::bin2bounds`: no clamp on the bin value, same
binary-search row lookup, then `(north, south, west, east)`. -/
noncomputable def Isin.bin2boundsGo (g : Isin) : List Nat → Except Err (List (ℝ × ℝ × ℝ × ℝ))
  | [] => .ok []
  | b :: rest =>
    match bsearchRow g.basebin b with
    | .error e => .error e
    | .ok row =>
      match idx g.latbin row with
      | .error e => .error e
      | .ok la =>
        let north := la + 90 / (g.numrows : ℝ)
        let south := la - 90 / (g.numrows : ℝ)
        match idx g.basebin row with
        | .error e => .error e
        | .ok bb =>
          match idx g.numbin row with
          | .error e => .error e
          | .ok m =>
            let lo := 360 * ((b : ℝ) - (bb : ℝ) + 0.5) / (m : ℝ) - 180
            let west := lo - 180 / (m : ℝ)
            let east := lo + 180 / (m : ℝ)
            match g.bin2boundsGo rest with
            | .error e => .error e
            | .ok res => .ok ((north, south, west, east) :: res)

/-- From `isin.rs`: `Isin::bin2bounds` — `validate_bins` first, then the loop. -/
noncomputable def Isin.bin2bounds (g : Isin) (bin : List Nat) :
    Except Err (List (ℝ × ℝ × ℝ × ℝ)) :=
  match g.validate_bins bin with
  | .error e => .error e
  | .ok _ => g.bin2boundsGo bin

/-- From `lib.rs` `bin2lonlat`: the `while bin_val < basebin[row] { row -= 1 }`
linear scan, starting at a given row.  Reaching `row == 0` with the condition
still true would underflow (wrap) and then index out of bounds: a panic,
modelled as `none`; likewise a start row that is already out of bounds. -/
def scanRow (basebin : List Nat) (bv : Nat) : Nat → Option Nat
  | 0 =>
    match basebin[0]? with
    | none => none
    | some base => if bv < base then none else some 0
  | row + 1 =>
    match basebin[row + 1]? with
    | none => none
    | some base => if bv < base then scanRow basebin bv row else some (row + 1)

/-- Loop body of `lib.rs` `Isin::bin2lonlat`: each iteration starts the scan
at `row0` (the caller passes `numrows - 1` in `usize` arithmetic), clamps the
bin value, and scans down. -/
noncomputable def LibBin2lonlatGo (g : Isin) (row0 : Nat) : List Nat → Option (List (ℝ × ℝ))
  | [] => some []
  | b :: rest =>
    let bv := if b < 1 then 1 else b
    match scanRow g.basebin bv row0 with
    | none => none
    | some row =>
      match g.latbin[row]? with
      | none => none
      | some la =>
        match g.basebin[row]? with
        | none => none
        | some bb =>
          match g.numbin[row]? with
          | none => none
          | some m =>
            let lo := 360 * ((bv : ℝ) - (bb : ℝ) + 0.5) / (m : ℝ) - 180
            match LibBin2lonlatGo g row0 rest with
            | none => none
            | some res => some ((lo, la) :: res)

/-- From `lib.rs`: `Isin::bin2lonlat` — the assert-based variant: the
`assert_eq!` on bin validity panics (`none`) instead of returning an error;
row lookup is the linear scan. -/
noncomputable def LibBin2lonlat (g : Isin) (bin : List Nat) : Option (List (ℝ × ℝ)) :=
  if bin.all (fun b => decide (1 ≤ b) && decide (b ≤ g.totbin)) then
    LibBin2lonlatGo g (wsub g.numrows 1) bin
  else
    none

/-! ### Basic characterizations -/

lemma ivwb_iff (v : List ℝ) (lo hi : ℝ) :
    is_vector_within_bounds v lo hi = true ↔ ∀ x ∈ v, lo ≤ x ∧ x ≤ hi := by
  simp [is_vector_within_bounds]

lemma ivwb_eq_false (v : List ℝ) (lo hi : ℝ) (x : ℝ) (hx : x ∈ v)
    (h : ¬(lo ≤ x ∧ x ≤ hi)) : is_vector_within_bounds v lo hi = false := by
  rcases Bool.eq_false_or_eq_true (is_vector_within_bounds v lo hi) with hb | hb
  · exact absurd ((ivwb_iff v lo hi).mp hb x hx) h
  · exact hb

lemma validate_bins_ok (g : Isin) (bins : List Nat)
    (h : ∀ b ∈ bins, 1 ≤ b ∧ b ≤ g.totbin) :
    g.validate_bins bins = .ok () := by
  simp only [Isin.validate_bins, List.all_eq_true]
  rw [if_pos]
  intro b hb
  simpa using h b hb

lemma validate_bins_error (g : Isin) (bins : List Nat) (b : Nat) (hb : b ∈ bins)
    (h : ¬(1 ≤ b ∧ b ≤ g.totbin)) :
    g.validate_bins bins = .error (.binRange g.totbin) := by
  simp only [Isin.validate_bins]
  rw [if_neg]
  intro hall
  rw [List.all_eq_true] at hall
  exact h (by simpa using hall b hb)

lemma length_latbinList (n : Nat) : (latbinList n).length = n := by
  simp [latbinList]

lemma length_numbinList (n : Nat) : (numbinList n).length = n := by
  simp [numbinList]

lemma length_basebinList (n : Nat) : (basebinList n).length = max 1 n := by
  simp [basebinList]

lemma latbinList_get (n r : Nat) (h : r < n) :
    (latbinList n)[r]? = some (rowLat n r) := by
  simp [latbinList, List.getElem?_range h]

lemma numbinList_get (n r : Nat) (h : r < n) :
    (numbinList n)[r]? = some (rowNum n r) := by
  simp [numbinList, List.getElem?_range h]

lemma numbinList_get_none (n r : Nat) (h : n ≤ r) :
    (numbinList n)[r]? = none := by
  apply List.getElem?_eq_none
  rw [length_numbinList]
  omega

lemma basebinList_get (n r : Nat) (h : r < max 1 n) :
    (basebinList n)[r]? = some (basebinVal n r) := by
  simp [basebinList, List.getElem?_range h]

lemma basebinList_get_none (n r : Nat) (h : max 1 n ≤ r) :
    (basebinList n)[r]? = none := by
  apply List.getElem?_eq_none
  rw [length_basebinList]
  omega

lemma mkTable_basebin (n : Nat) : (mkTable n).basebin = basebinList n := rfl
lemma mkTable_numbin (n : Nat) : (mkTable n).numbin = numbinList n := rfl
lemma mkTable_latbin (n : Nat) : (mkTable n).latbin = latbinList n := rfl
lemma mkTable_totbin (n : Nat) : (mkTable n).totbin = basebinVal n n - 1 := rfl
lemma mkTable_numrows (n : Nat) : (mkTable n).numrows = n := rfl

/-! ### The per-row bin count is at least 1 -/

lemma rowLat_abs_le (n r : Nat) (hn : 1 ≤ n) (hr : r < n) :
    |rowLat n r| ≤ 90 - 90 / (n : ℝ) := by
  have hnpos : (0 : ℝ) < n := by exact_mod_cast hn
  have hrle : (r : ℝ) + 1 ≤ n := by exact_mod_cast hr
  have hrpos : (0 : ℝ) ≤ r := Nat.cast_nonneg r
  rw [abs_le]
  unfold rowLat
  constructor
  · have h90 : (90 : ℝ) / n ≤ ((r : ℝ) + 0.5) * 180 / n := by
      gcongr
      nlinarith
    linarith
  · have h90 : ((r : ℝ) + 0.5) * 180 / n ≤ ((n : ℝ) - 0.5) * 180 / n := by
      gcongr
      linarith
    have hexp : ((n : ℝ) - 0.5) * 180 / n = 180 - 90 / n := by
      field_simp
      ring
    linarith [hexp ▸ h90]

lemma cos_rowLat_ge (n r : Nat) (hn : 1 ≤ n) (hr : r < n) :
    1 / (4 * (n : ℝ)) ≤ Real.cos (rowLat n r * (Real.pi / 180)) := by
  have hnpos : (0 : ℝ) < n := by exact_mod_cast hn
  have hpi : (0 : ℝ) < Real.pi := Real.pi_pos
  rcases Nat.lt_or_ge n 2 with h2 | h2
  · -- n = 1, r = 0: the single row is centered at the equator
    have hn1 : n = 1 := by omega
    have hr0 : r = 0 := by omega
    subst hn1; subst hr0
    have hlat : rowLat 1 0 = 0 := by unfold rowLat; norm_num
    rw [hlat]
    simp [Real.cos_zero]
    norm_num
  · have hn2 : (2 : ℝ) ≤ n := by exact_mod_cast h2
    set x := Real.pi / (2 * (n : ℝ)) with hx
    have hxpos : 0 < x := by positivity
    have hxle : x ≤ 1 := by
      rw [hx, div_le_one (by positivity)]
      calc Real.pi ≤ 4 := Real.pi_le_four
        _ ≤ 2 * (n : ℝ) := by linarith
    -- |θ| ≤ π/2 - x
    have habs := rowLat_abs_le n r hn hr
    have hθabs : |rowLat n r * (Real.pi / 180)| ≤ Real.pi / 2 - x := by
      rw [abs_mul, abs_of_pos (by positivity : (0:ℝ) < Real.pi / 180)]
      have h1 : |rowLat n r| * (Real.pi / 180) ≤ (90 - 90 / n) * (Real.pi / 180) := by
        gcongr
      have h2 : (90 - 90 / (n : ℝ)) * (Real.pi / 180) = Real.pi / 2 - x := by
        rw [hx]
        field_simp
        ring
      linarith
    -- cos θ = cos |θ| ≥ cos (π/2 - x) = sin x
    have hmono : Real.cos (Real.pi / 2 - x) ≤ Real.cos |rowLat n r * (Real.pi / 180)| := by
      apply Real.cos_le_cos_of_nonneg_of_le_pi (abs_nonneg _) _ hθabs
      have : x ≤ Real.pi / 2 := by
        rw [hx]
        apply div_le_div_of_nonneg_left hpi.le (by norm_num) (by linarith)
      linarith
    rw [Real.cos_pi_div_two_sub, Real.cos_abs] at hmono
    -- sin x > x - x^3/4 ≥ (3/4) x ≥ (3/4) * π/(2n) ≥ 9/(8n) ≥ 1/(4n)
    have hsin := Real.sin_gt_sub_cube hxpos hxle
    have hcube : x ^ 3 ≤ x := by
      calc x ^ 3 = x * x ^ 2 := by ring
        _ ≤ x * 1 := by
            apply mul_le_mul_of_nonneg_left _ hxpos.le
            calc x ^ 2 ≤ 1 ^ 2 := by
                  apply pow_le_pow_left hxpos.le hxle
              _ = 1 := by norm_num
        _ = x := by norm_num
    have h34 : (3 / 4) * x ≤ Real.sin x := by nlinarith
    have hxval : 9 / (8 * (n : ℝ)) ≤ (3 / 4) * x := by
      have hrw : (3 : ℝ) / 4 * (Real.pi / (2 * (n : ℝ))) = 3 * Real.pi / (8 * (n : ℝ)) := by
        field_simp
        ring
      rw [hx, hrw]
      gcongr
      linarith [Real.pi_gt_three]
    have hfin : 1 / (4 * (n : ℝ)) ≤ 9 / (8 * (n : ℝ)) := by
      rw [div_le_div_iff (by positivity) (by positivity)]
      nlinarith
    linarith

lemma rowNum_pos (n r : Nat) (hn : 1 ≤ n) (hr : r < n) : 1 ≤ rowNum n r := by
  have hnpos : (0 : ℝ) < n := by exact_mod_cast hn
  have hcos := cos_rowLat_ge n r hn hr
  have hhalf : 2 * (n : ℝ) * (1 / (4 * (n : ℝ))) = 1 / 2 := by
    field_simp
    ring
  have hge : (1 : ℝ) ≤ 2 * (n : ℝ) * Real.cos (rowLat n r * (Real.pi / 180)) + 0.5 := by
    nlinarith
  unfold rowNum
  exact Nat.le_floor (by exact_mod_cast hge)

/-! ### Monotonicity of the base-bin sequence and the row partition -/

lemma one_le_basebinVal (n : Nat) : ∀ r, 1 ≤ basebinVal n r
  | 0 => le_refl 1
  | r + 1 => le_trans (one_le_basebinVal n r) (Nat.le_add_right _ _)

lemma basebinVal_le (n : Nat) {i j : Nat} (hij : i ≤ j) :
    basebinVal n i ≤ basebinVal n j := by
  induction j with
  | zero =>
    have : i = 0 := by omega
    subst this
    exact le_refl _
  | succ m ih =>
    rcases Nat.lt_or_ge i (m + 1) with h | h
    · exact le_trans (ih (by omega)) (Nat.le_add_right _ _)
    · have : i = m + 1 := by omega
      subst this
      exact le_refl _

lemma basebinVal_lt (n : Nat) (hn : 1 ≤ n) {i j : Nat} (hij : i < j) (hj : j ≤ n) :
    basebinVal n i < basebinVal n j := by
  have h1 : basebinVal n i < basebinVal n (i + 1) := by
    have := rowNum_pos n i hn (by omega)
    show basebinVal n i < basebinVal n i + rowNum n i
    omega
  exact lt_of_lt_of_le h1 (basebinVal_le n (by omega))

lemma exists_bracket (n b : Nat) (hn : 1 ≤ n) (hb1 : 1 ≤ b) :
    ∀ m, m ≤ n → b < basebinVal n m →
      ∃ r, r < m ∧ basebinVal n r ≤ b ∧ b < basebinVal n (r + 1)
  | 0, _, hlt => absurd hlt (by simp [basebinVal]; omega)
  | m + 1, hm, hlt => by
    rcases Nat.lt_or_ge b (basebinVal n m) with h | h
    · obtain ⟨r, hr, h1, h2⟩ := exists_bracket n b hn hb1 m (by omega) h
      exact ⟨r, by omega, h1, h2⟩
    · exact ⟨m, by omega, h, hlt⟩

lemma bracket_unique (n b : Nat) (hn : 1 ≤ n) {r s : Nat} (hr : r < n) (hs : s < n)
    (h1 : basebinVal n r ≤ b) (h2 : b < basebinVal n (r + 1))
    (h3 : basebinVal n s ≤ b) (h4 : b < basebinVal n (s + 1)) : r = s := by
  by_contra hne
  rcases Nat.lt_or_ge r s with h | h
  · have := basebinVal_le n (show r + 1 ≤ s by omega)
    omega
  · have hsr : s < r := by omega
    have := basebinVal_le n (show s + 1 ≤ r by omega)
    omega

/-! ### Binary search and linear scan both find the bracketing row -/

lemma countP_range_eq (p : Nat → Bool) (n r : Nat) (hrn : r ≤ n)
    (h : ∀ i, i < n → (p i = true ↔ i < r)) : (List.range n).countP p = r := by
  induction n generalizing r with
  | zero =>
    simp only [List.range_zero, List.countP_nil]
    omega
  | succ m ih =>
    rw [List.range_succ, List.countP_append]
    rcases Nat.lt_or_ge m r with hm | hm
    · have hr : r = m + 1 := by omega
      have hpm : p m = true := (h m (Nat.lt_succ_self m)).mpr hm
      have hcount : (List.range m).countP p = m := by
        apply ih m (le_refl m)
        intro i hi
        exact ⟨fun _ => hi, fun _ => (h i (by omega)).mpr (by omega)⟩
      simp [hcount, hpm, hr, List.countP_cons]
    · have hpm : p m = false := by
        rcases Bool.eq_false_or_eq_true (p m) with hb | hb
        · exact absurd ((h m (Nat.lt_succ_self m)).mp hb) (by omega)
        · exact hb
      have hcount : (List.range m).countP p = r := by
        apply ih r hm
        intro i hi
        exact h i (by omega)
      simp [hcount, hpm, List.countP_cons]

lemma basebin_countP (n b r : Nat) (hn : 1 ≤ n) (hrn : r ≤ n)
    (h : ∀ i, i < n → (basebinVal n i < b ↔ i < r)) :
    (basebinList n).countP (fun y => decide (y < b)) = r := by
  have hmax : max 1 n = n := by omega
  rw [basebinList, hmax, List.countP_map]
  apply countP_range_eq _ n r hrn
  intro i hi
  simp only [Function.comp_apply, decide_eq_true_eq]
  exact h i hi

lemma bsearchRow_ok (n b r : Nat) (hn : 1 ≤ n) (hr : r < n)
    (h1 : basebinVal n r ≤ b) (h2 : b < basebinVal n (r + 1)) :
    bsearchRow (basebinList n) b = .ok r := by
  have hmax : max 1 n = n := by omega
  rcases eq_or_lt_of_le h1 with heq | hlt
  · -- exact hit at index r
    have hk : (basebinList n).countP (fun y => decide (y < b)) = r := by
      apply basebin_countP n b r hn (by omega)
      intro i hi
      constructor
      · intro hib
        by_contra hge
        have := basebinVal_le n (show r ≤ i by omega)
        omega
      · intro hir
        have := basebinVal_lt n hn hir (by omega)
        omega
    have hget : (basebinList n)[r]? = some (basebinVal n r) :=
      basebinList_get n r (by omega)
    subst heq
    unfold bsearchRow bsearch
    simp [hk, hget]
  · -- miss: insertion point r + 1
    have hk : (basebinList n).countP (fun y => decide (y < b)) = r + 1 := by
      apply basebin_countP n b (r + 1) hn (by omega)
      intro i hi
      constructor
      · intro hib
        by_contra hge
        have := basebinVal_le n (show r + 1 ≤ i by omega)
        omega
      · intro hir
        have := basebinVal_le n (show i ≤ r by omega)
        omega
    have hget : (basebinList n)[r + 1]? ≠ some b := by
      rcases Nat.lt_or_ge (r + 1) n with hlt2 | hge2
      · rw [basebinList_get n (r + 1) (by omega)]
        intro hcon
        have : basebinVal n (r + 1) = b := by injection hcon
        omega
      · rw [basebinList_get_none n (r + 1) (by omega)]
        intro hcon
        exact Option.noConfusion hcon
    unfold bsearchRow bsearch
    simp only [hk]
    rw [if_neg hget]
    simp

lemma scanRow_finds (n b : Nat) (hn : 1 ≤ n) {r : Nat} (hr : r < n)
    (h1 : basebinVal n r ≤ b) (h2 : b < basebinVal n (r + 1)) :
    ∀ j, j < n → r ≤ j → scanRow (basebinList n) b j = some r := by
  intro j
  induction j with
  | zero =>
    intro hj hrj
    have hr0 : r = 0 := by omega
    subst hr0
    rw [scanRow, basebinList_get n 0 (by omega)]
    simp only [if_neg (by omega : ¬ b < basebinVal n 0)]
  | succ m ih =>
    intro hj hrj
    rcases Nat.lt_or_ge m r with hm | hm
    · have : r = m + 1 := by omega
      subst this
      rw [scanRow, basebinList_get n (m + 1) (by omega)]
      simp only [if_neg (by omega : ¬ b < basebinVal n (m + 1))]
    · have hbm : b < basebinVal n (m + 1) := by
        have := basebinVal_le n (show r + 1 ≤ m + 1 by omega)
        omega
      rw [scanRow, basebinList_get n (m + 1) (by omega)]
      simp only [if_pos hbm]
      exact ih (by omega) hm

/-! ### Linking the constructor to the complete table -/

lemma usize_val : USIZE = 18446744073709551616 := by
  unfold USIZE
  norm_num

lemma wsub_one (n : Nat) (h1 : 1 ≤ n) (h2 : n ≤ USIZE) : wsub n 1 = n - 1 := by
  unfold wsub
  rw [usize_val] at h2 ⊢
  omega

lemma new_eq_mkTable (sat : Satellite) (hn : 1 ≤ sat.num_latitude_rows)
    (hw : sat.num_latitude_rows ≤ USIZE) :
    Isin.new sat = some (mkTable sat.num_latitude_rows) := by
  set n := sat.num_latitude_rows with hns
  have hwsub : wsub n 1 = n - 1 := wsub_one n hn hw
  have hbget : (basebinList n)[n - 1]? = some (basebinVal n (n - 1)) :=
    basebinList_get n (n - 1) (by omega)
  have hnget : (numbinList n)[n - 1]? = some (rowNum n (n - 1)) :=
    numbinList_get n (n - 1) (by omega)
  have htot : basebinVal n (n - 1) + rowNum n (n - 1) = basebinVal n n := by
    have : n - 1 + 1 = n := by omega
    calc basebinVal n (n - 1) + rowNum n (n - 1) = basebinVal n (n - 1 + 1) := rfl
      _ = basebinVal n n := by rw [this]
  simp only [Isin.new, ← hns]
  rw [hwsub, hbget, hnget]
  simp only [mkTable, htot]

/-! ### Evaluation lemmas for the query operations -/

lemma idx_eq {α : Type} (l : List α) (i : Nat) (a : α) (h : l[i]? = some a) :
    idx l i = .ok a := by
  simp [idx, h]

lemma idx_none {α : Type} (l : List α) (i : Nat) (h : l[i]? = none) :
    idx l i = .error .crash := by
  simp [idx, h]

lemma totbin_iff (n b : Nat) :
    b ≤ (mkTable n).totbin ↔ b < basebinVal n n := by
  rw [mkTable_totbin]
  have := one_le_basebinVal n n
  omega

lemma valid_bracket (n b : Nat) (hn : 1 ≤ n) (hb1 : 1 ≤ b)
    (hb2 : b ≤ (mkTable n).totbin) :
    ∃ r, r < n ∧ basebinVal n r ≤ b ∧ b < basebinVal n (r + 1) :=
  exists_bracket n b hn hb1 n (le_refl n) ((totbin_iff n b).mp hb2)

lemma lat2row_ok (g : Isin) (lat : ℝ) (h1 : -90 ≤ lat) (h2 : lat ≤ 90) :
    g.lat2row lat = .ok ⌊(90 + lat) * (g.numrows : ℝ) / 180⌋₊ := by
  unfold Isin.lat2row
  rw [if_pos]
  rw [ivwb_iff]
  intro x hx
  have hx2 : x = lat := by simpa using hx
  subst hx2
  unfold MIN_LAT MAX_LAT
  exact ⟨h1, h2⟩

lemma lat2row_error (g : Isin) (lat : ℝ) (h : ¬(-90 ≤ lat ∧ lat ≤ 90)) :
    g.lat2row lat = .error (.latValue lat MIN_LAT MAX_LAT) := by
  unfold Isin.lat2row
  rw [if_neg]
  intro hpos
  rw [ivwb_iff] at hpos
  have := hpos lat (by simp)
  unfold MIN_LAT MAX_LAT at this
  exact h this

lemma floor_lat_lt (n : Nat) (hn : 1 ≤ n) (lat : ℝ) (h1 : -90 ≤ lat) (h2 : lat < 90) :
    ⌊(90 + lat) * (n : ℝ) / 180⌋₊ < n := by
  have hnpos : (0 : ℝ) < n := by exact_mod_cast hn
  rw [Nat.floor_lt (div_nonneg (mul_nonneg (by linarith) (Nat.cast_nonneg n)) (by norm_num))]
  rw [div_lt_iff (by norm_num : (0:ℝ) < 180)]
  nlinarith

lemma floor_lat_90 (n : Nat) : ⌊(90 + (90 : ℝ)) * (n : ℝ) / 180⌋₊ = n := by
  have h : (90 + (90 : ℝ)) * (n : ℝ) / 180 = (n : ℝ) := by ring
  rw [h, Nat.floor_natCast]

/-- One successful step of the `bin2lonlat` loop in `isin.rs`. -/
lemma bin2lonlatGo_cons (n : Nat) (hn : 1 ≤ n) (b r : Nat) (rest : List Nat)
    (res : List (ℝ × ℝ)) (hb1 : 1 ≤ b)
    (hr : r < n) (h1 : basebinVal n r ≤ b) (h2 : b < basebinVal n (r + 1))
    (hrest : (mkTable n).bin2lonlatGo rest = .ok res) :
    (mkTable n).bin2lonlatGo (b :: rest) =
      .ok ((360 * ((b : ℝ) - ((basebinVal n r : Nat) : ℝ) + 0.5) / ((rowNum n r : Nat) : ℝ) - 180,
            rowLat n r) :: res) := by
  have hclamp : (if b < 1 then 1 else b) = b := by
    rw [if_neg (by omega)]
  have hbs : bsearchRow (mkTable n).basebin b = .ok r := by
    rw [mkTable_basebin]
    exact bsearchRow_ok n b r hn hr h1 h2
  have hla : idx (mkTable n).latbin r = .ok (rowLat n r) := by
    rw [mkTable_latbin]
    exact idx_eq _ _ _ (latbinList_get n r hr)
  have hbb : idx (mkTable n).basebin r = .ok (basebinVal n r) := by
    rw [mkTable_basebin]
    exact idx_eq _ _ _ (basebinList_get n r (by omega))
  have hm : idx (mkTable n).numbin r = .ok (rowNum n r) := by
    rw [mkTable_numbin]
    exact idx_eq _ _ _ (numbinList_get n r hr)
  rw [Isin.bin2lonlatGo]
  simp only [hclamp, hbs, hla, hbb, hm, hrest]

/-- One successful step of the `bin2bounds` loop in `isin.rs`. -/
lemma bin2boundsGo_cons (n : Nat) (hn : 1 ≤ n) (b r : Nat) (rest : List Nat)
    (res : List (ℝ × ℝ × ℝ × ℝ))
    (hr : r < n) (h1 : basebinVal n r ≤ b) (h2 : b < basebinVal n (r + 1))
    (hrest : (mkTable n).bin2boundsGo rest = .ok res) :
    (mkTable n).bin2boundsGo (b :: rest) =
      .ok ((rowLat n r + 90 / (n : ℝ),
            rowLat n r - 90 / (n : ℝ),
            360 * ((b : ℝ) - ((basebinVal n r : Nat) : ℝ) + 0.5) / ((rowNum n r : Nat) : ℝ) - 180
              - 180 / ((rowNum n r : Nat) : ℝ),
            360 * ((b : ℝ) - ((basebinVal n r : Nat) : ℝ) + 0.5) / ((rowNum n r : Nat) : ℝ) - 180
              + 180 / ((rowNum n r : Nat) : ℝ)) :: res) := by
  have hbs : bsearchRow (mkTable n).basebin b = .ok r := by
    rw [mkTable_basebin]
    exact bsearchRow_ok n b r hn hr h1 h2
  have hla : idx (mkTable n).latbin r = .ok (rowLat n r) := by
    rw [mkTable_latbin]
    exact idx_eq _ _ _ (latbinList_get n r hr)
  have hbb : idx (mkTable n).basebin r = .ok (basebinVal n r) := by
    rw [mkTable_basebin]
    exact idx_eq _ _ _ (basebinList_get n r (by omega))
  have hm : idx (mkTable n).numbin r = .ok (rowNum n r) := by
    rw [mkTable_numbin]
    exact idx_eq _ _ _ (numbinList_get n r hr)
  rw [Isin.bin2boundsGo]
  simp only [hbs, hla, hbb, hm, hrest, mkTable_numrows]

lemma bin2lonlatGo_total (n : Nat) (hn : 1 ≤ n) :
    ∀ bins : List Nat, (∀ b ∈ bins, 1 ≤ b ∧ b ≤ (mkTable n).totbin) →
      ∃ res, (mkTable n).bin2lonlatGo bins = .ok res ∧ res.length = bins.length := by
  intro bins
  induction bins with
  | nil =>
    intro _
    exact ⟨[], rfl, rfl⟩
  | cons b rest ih =>
    intro hall
    obtain ⟨res, hres, hlen⟩ := ih (fun x hx => hall x (List.mem_cons_of_mem b hx))
    obtain ⟨hb1, hb2⟩ := hall b (List.mem_cons_self b rest)
    obtain ⟨r, hr, h1, h2⟩ := valid_bracket n b hn hb1 hb2
    refine ⟨_, bin2lonlatGo_cons n hn b r rest res hb1 hr h1 h2 hres, ?_⟩
    simp [hlen]

lemma bin2boundsGo_total (n : Nat) (hn : 1 ≤ n) :
    ∀ bins : List Nat, (∀ b ∈ bins, 1 ≤ b ∧ b ≤ (mkTable n).totbin) →
      ∃ res, (mkTable n).bin2boundsGo bins = .ok res ∧ res.length = bins.length := by
  intro bins
  induction bins with
  | nil =>
    intro _
    exact ⟨[], rfl, rfl⟩
  | cons b rest ih =>
    intro hall
    obtain ⟨res, hres, hlen⟩ := ih (fun x hx => hall x (List.mem_cons_of_mem b hx))
    obtain ⟨hb1, hb2⟩ := hall b (List.mem_cons_self b rest)
    obtain ⟨r, hr, h1, h2⟩ := valid_bracket n b hn hb1 hb2
    refine ⟨_, bin2boundsGo_cons n hn b r rest res hr h1 h2 hres, ?_⟩
    simp [hlen]

/-- One successful step of the `lonlat2bin` loop in `isin.rs`: the selected
row is `lat2row` of the latitude, the column is clamped below the row's bin
count, and when the unclamped column is already in range no clamping happens. -/
lemma lonlat2binGo_cons (n : Nat) (hn : 1 ≤ n) (lon lat : List ℝ) (i : Nat)
    (idxs : List Nat) (la lo : ℝ) (bs : List Nat) (row : Nat)
    (hla : lat[i]? = some la) (hlo : lon[i]? = some lo)
    (h1 : -90 ≤ la) (h2 : la < 90)
    (hrowdef : row = ⌊(90 + la) * (n : ℝ) / 180⌋₊)
    (hrest : (mkTable n).lonlat2binGo lon lat idxs = .ok bs) :
    ∃ col2, col2 < rowNum n row ∧
      (⌊(lo + 180) * ((rowNum n row : ℝ) / 360)⌋₊ < rowNum n row →
        col2 = ⌊(lo + 180) * ((rowNum n row : ℝ) / 360)⌋₊) ∧
      (mkTable n).lonlat2binGo lon lat (i :: idxs) =
        .ok ((basebinVal n row + col2) :: bs) := by
  have hrow : row < n := by
    rw [hrowdef]
    exact floor_lat_lt n hn la h1 h2
  have hmpos : 1 ≤ rowNum n row := rowNum_pos n row hn hrow
  have hl2r : (mkTable n).lat2row la = .ok row := by
    have h := lat2row_ok (mkTable n) la h1 (le_of_lt h2)
    rw [mkTable_numrows] at h
    rw [h, hrowdef]
  have hlaget : idx lat i = .ok la := idx_eq _ _ _ hla
  have hloget : idx lon i = .ok lo := idx_eq _ _ _ hlo
  have hmget : idx (mkTable n).numbin row = .ok (rowNum n row) := by
    rw [mkTable_numbin]
    exact idx_eq _ _ _ (numbinList_get n row hrow)
  have hbbget : idx (mkTable n).basebin row = .ok (basebinVal n row) := by
    rw [mkTable_basebin]
    exact idx_eq _ _ _ (basebinList_get n row (by omega))
  by_cases hcol : ⌊(lo + 180) * ((rowNum n row : ℝ) / 360)⌋₊ ≥ rowNum n row
  · refine ⟨rowNum n row - 1, by omega, by omega, ?_⟩
    rw [Isin.lonlat2binGo]
    simp only [hlaget, hl2r, hloget, hmget, hbbget, hrest]
    rw [if_pos hcol, if_neg (by omega : ¬ rowNum n row = 0)]
  · refine ⟨⌊(lo + 180) * ((rowNum n row : ℝ) / 360)⌋₊, by omega, fun _ => rfl, ?_⟩
    rw [Isin.lonlat2binGo]
    simp only [hlaget, hl2r, hloget, hmget, hbbget, hrest]
    rw [if_neg hcol]

lemma lonlat2binGo_total (n : Nat) (hn : 1 ≤ n) (lon lat : List ℝ)
    (hlat : ∀ y ∈ lat, -90 ≤ y ∧ y < 90) (hlen : lon.length = lat.length) :
    ∀ idxs : List Nat, (∀ i ∈ idxs, i < lat.length) →
      ∃ bs, (mkTable n).lonlat2binGo lon lat idxs = .ok bs ∧
        bs.length = idxs.length ∧
        ∀ b ∈ bs, 1 ≤ b ∧ b ≤ (mkTable n).totbin := by
  intro idxs
  induction idxs with
  | nil =>
    intro _
    exact ⟨[], rfl, rfl, by simp⟩
  | cons i rest ih =>
    intro hall
    obtain ⟨bs, hbs, hlenbs, hvalid⟩ := ih (fun j hj => hall j (List.mem_cons_of_mem i hj))
    have hi : i < lat.length := hall i (List.mem_cons_self i rest)
    have hila : lat[i]? = some lat[i] := List.getElem?_eq_getElem hi
    have hilo : lon[i]? = some lon[i] := List.getElem?_eq_getElem (by omega)
    have hmem : lat[i] ∈ lat := List.getElem_mem hi
    obtain ⟨hy1, hy2⟩ := hlat lat[i] hmem
    obtain ⟨col2, hcol2, _, heq⟩ :=
      lonlat2binGo_cons n hn lon lat i rest lat[i] lon[i] bs
        ⌊(90 + lat[i]) * (n : ℝ) / 180⌋₊ hila hilo hy1 hy2 rfl hbs
    have hrow : ⌊(90 + lat[i]) * (n : ℝ) / 180⌋₊ < n := floor_lat_lt n hn lat[i] hy1 hy2
    refine ⟨_, heq, by simp [hlenbs], ?_⟩
    intro b hb
    rcases List.mem_cons.mp hb with hb | hb
    · subst hb
      constructor
      · have := one_le_basebinVal n ⌊(90 + lat[i]) * (n : ℝ) / 180⌋₊
        omega
      · rw [totbin_iff]
        have hlt : basebinVal n ⌊(90 + lat[i]) * (n : ℝ) / 180⌋₊ + col2 <
            basebinVal n (⌊(90 + lat[i]) * (n : ℝ) / 180⌋₊ + 1) := by
          show _ < basebinVal n ⌊(90 + lat[i]) * (n : ℝ) / 180⌋₊ +
            rowNum n ⌊(90 + lat[i]) * (n : ℝ) / 180⌋₊
          omega
        have hle := basebinVal_le n (show ⌊(90 + lat[i]) * (n : ℝ) / 180⌋₊ + 1 ≤ n by omega)
        omega
    · exact hvalid b hb

/-! ### Outer wrappers and the lib.rs variant -/

lemma ivwb_ne_false (v : List ℝ) (lo hi : ℝ) (h : is_vector_within_bounds v lo hi = true) :
    ¬ is_vector_within_bounds v lo hi = false := by
  simp [h]

lemma lonlat2bin_go_eq (g : Isin) (lon lat : List ℝ)
    (hlon : ∀ x ∈ lon, -180 ≤ x ∧ x ≤ 180) (hlat : ∀ y ∈ lat, -90 ≤ y ∧ y ≤ 90) :
    g.lonlat2bin lon lat = g.lonlat2binGo lon lat (List.range lat.length) := by
  unfold Isin.lonlat2bin
  rw [if_neg (ivwb_ne_false _ _ _ ((ivwb_iff _ _ _).mpr (by
    unfold MIN_LON MAX_LON
    exact hlon)))]
  rw [if_neg (ivwb_ne_false _ _ _ ((ivwb_iff _ _ _).mpr (by
    unfold MIN_LAT MAX_LAT
    exact hlat)))]

lemma lonlat2bin_ok_shape (n : Nat) (hn : 1 ≤ n) (lon lat : List ℝ)
    (hlen : lon.length = lat.length)
    (hlon : ∀ x ∈ lon, -180 ≤ x ∧ x ≤ 180) (hlat : ∀ y ∈ lat, -90 ≤ y ∧ y < 90) :
    ∃ bs, (mkTable n).lonlat2bin lon lat = .ok bs ∧ bs.length = lat.length ∧
      ∀ b ∈ bs, 1 ≤ b ∧ b ≤ (mkTable n).totbin := by
  rw [lonlat2bin_go_eq _ lon lat hlon (fun y hy => ⟨(hlat y hy).1, le_of_lt (hlat y hy).2⟩)]
  obtain ⟨bs, hbs, hlenbs, hval⟩ :=
    lonlat2binGo_total n hn lon lat hlat hlen (List.range lat.length)
      (fun i hi => List.mem_range.mp hi)
  exact ⟨bs, hbs, by simpa using hlenbs, hval⟩

lemma bin2lonlat_of_go (g : Isin) (bins : List Nat)
    (hval : g.validate_bins bins = .ok ()) :
    g.bin2lonlat bins = g.bin2lonlatGo bins := by
  unfold Isin.bin2lonlat
  rw [hval]

lemma bin2bounds_of_go (g : Isin) (bins : List Nat)
    (hval : g.validate_bins bins = .ok ()) :
    g.bin2bounds bins = g.bin2boundsGo bins := by
  unfold Isin.bin2bounds
  rw [hval]

lemma one_le_totbin (n : Nat) (hn : 1 ≤ n) : 1 ≤ (mkTable n).totbin := by
  rw [mkTable_totbin]
  have h0 : basebinVal n 1 = 1 + rowNum n 0 := rfl
  have h1 : basebinVal n 1 ≤ basebinVal n n := basebinVal_le n hn
  have h2 := rowNum_pos n 0 hn (by omega)
  omega

lemma bsearch_of_row (l : List Nat) (b r : Nat) (h : bsearchRow l b = .ok r) :
    bsearch l b ≠ .error 0 := by
  intro hcon
  unfold bsearchRow at h
  rw [hcon] at h
  simp at h

/-- The linear scan of `lib.rs` and the binary search of `isin.rs` agree, and
the two loops produce the same output on valid bins. -/
lemma go_lib_agree (n : Nat) (hn : 1 ≤ n) (hw : n ≤ USIZE) :
    ∀ bins : List Nat, (∀ b ∈ bins, 1 ≤ b ∧ b ≤ (mkTable n).totbin) →
      ∃ res, (mkTable n).bin2lonlatGo bins = .ok res ∧
        LibBin2lonlatGo (mkTable n) (wsub (mkTable n).numrows 1) bins = some res := by
  intro bins
  induction bins with
  | nil =>
    intro _
    exact ⟨[], rfl, rfl⟩
  | cons b rest ih =>
    intro hall
    obtain ⟨res, hres, hlib⟩ := ih (fun x hx => hall x (List.mem_cons_of_mem b hx))
    obtain ⟨hb1, hb2⟩ := hall b (List.mem_cons_self b rest)
    obtain ⟨r, hr, h1, h2⟩ := valid_bracket n b hn hb1 hb2
    refine ⟨_, bin2lonlatGo_cons n hn b r rest res hb1 hr h1 h2 hres, ?_⟩
    have hclamp : (if b < 1 then 1 else b) = b := by
      rw [if_neg (by omega)]
    have hscan : scanRow (mkTable n).basebin b (wsub (mkTable n).numrows 1) = some r := by
      rw [mkTable_basebin, mkTable_numrows, wsub_one n hn hw]
      exact scanRow_finds n b hn hr h1 h2 (n - 1) (by omega) (by omega)
    have hla : (mkTable n).latbin[r]? = some (rowLat n r) := by
      rw [mkTable_latbin]
      exact latbinList_get n r hr
    have hbb : (mkTable n).basebin[r]? = some (basebinVal n r) := by
      rw [mkTable_basebin]
      exact basebinList_get n r (by omega)
    have hm : (mkTable n).numbin[r]? = some (rowNum n r) := by
      rw [mkTable_numbin]
      exact numbinList_get n r hr
    rw [LibBin2lonlatGo]
    simp only [hclamp, hscan, hla, hbb, hm, hlib]

lemma lib_bin2lonlat_eq (n : Nat) (hn : 1 ≤ n) (bins : List Nat)
    (hvalid : ∀ b ∈ bins, 1 ≤ b ∧ b ≤ (mkTable n).totbin) :
    LibBin2lonlat (mkTable n) bins =
      LibBin2lonlatGo (mkTable n) (wsub (mkTable n).numrows 1) bins := by
  unfold LibBin2lonlat
  rw [if_pos]
  rw [List.all_eq_true]
  intro b hb
  simpa using hvalid b hb

/-! ### Round-trip real arithmetic -/

lemma roundtrip_lat (n : Nat) (hn : 1 ≤ n) (lat : ℝ) (h1 : -90 ≤ lat) (h2 : lat < 90) :
    |rowLat n ⌊(90 + lat) * (n : ℝ) / 180⌋₊ - lat| ≤ 90 / (n : ℝ) := by
  have hnpos : (0 : ℝ) < n := by exact_mod_cast hn
  set t := (90 + lat) * (n : ℝ) / 180 with ht
  have ht0 : 0 ≤ t := by
    rw [ht]
    apply div_nonneg (mul_nonneg (by linarith) (Nat.cast_nonneg n)) (by norm_num)
  have hfl1 : ((⌊t⌋₊ : ℕ) : ℝ) ≤ t := Nat.floor_le ht0
  have hfl2 : t < (⌊t⌋₊ : ℕ) + 1 := Nat.lt_floor_add_one t
  have hlat_eq : lat = t * 180 / n - 90 := by
    rw [ht]
    field_simp
  have hdiff : rowLat n ⌊t⌋₊ - lat = (((⌊t⌋₊ : ℕ) : ℝ) + 0.5 - t) * (180 / n) := by
    rw [rowLat, hlat_eq]
    field_simp
    ring
  rw [hdiff, abs_mul, abs_of_pos (by positivity : (0:ℝ) < 180 / n)]
  have habs : |((⌊t⌋₊ : ℕ) : ℝ) + 0.5 - t| ≤ 1 / 2 := by
    rw [abs_le]
    constructor <;> [linarith; linarith]
  calc |((⌊t⌋₊ : ℕ) : ℝ) + 0.5 - t| * (180 / n) ≤ (1 / 2) * (180 / n) := by
        apply mul_le_mul_of_nonneg_right habs (by positivity)
    _ = 90 / n := by ring

lemma col_lt (m : Nat) (hm : 1 ≤ m) (lo : ℝ) (h1 : -180 ≤ lo) (h2 : lo < 180) :
    ⌊(lo + 180) * ((m : ℝ) / 360)⌋₊ < m := by
  have hmpos : (0 : ℝ) < m := by exact_mod_cast hm
  rw [Nat.floor_lt (mul_nonneg (by linarith) (by positivity))]
  have : (lo + 180) * ((m : ℝ) / 360) < 360 * ((m : ℝ) / 360) := by
    apply mul_lt_mul_of_pos_right (by linarith) (by positivity)
  calc (lo + 180) * ((m : ℝ) / 360) < 360 * ((m : ℝ) / 360) := this
    _ = m := by field_simp

lemma roundtrip_lon (m : Nat) (hm : 1 ≤ m) (lo : ℝ) (h1 : -180 ≤ lo) (h2 : lo < 180) :
    |(360 * ((⌊(lo + 180) * ((m : ℝ) / 360)⌋₊ : ℕ) + 0.5) / (m : ℝ) - 180) - lo|
      ≤ 180 / (m : ℝ) := by
  have hmpos : (0 : ℝ) < m := by exact_mod_cast hm
  set u := (lo + 180) * ((m : ℝ) / 360) with hu
  have hu0 : 0 ≤ u := by
    rw [hu]
    apply mul_nonneg (by linarith) (by positivity)
  have hfl1 : ((⌊u⌋₊ : ℕ) : ℝ) ≤ u := Nat.floor_le hu0
  have hfl2 : u < (⌊u⌋₊ : ℕ) + 1 := Nat.lt_floor_add_one u
  have hlo_eq : lo = 360 * u / m - 180 := by
    rw [hu]
    field_simp
  have hdiff : (360 * (((⌊u⌋₊ : ℕ) : ℝ) + 0.5) / (m : ℝ) - 180) - lo =
      (((⌊u⌋₊ : ℕ) : ℝ) + 0.5 - u) * (360 / m) := by
    rw [hlo_eq]
    field_simp
    ring
  rw [hdiff, abs_mul, abs_of_pos (by positivity : (0:ℝ) < 360 / m)]
  have habs : |((⌊u⌋₊ : ℕ) : ℝ) + 0.5 - u| ≤ 1 / 2 := by
    rw [abs_le]
    constructor <;> [linarith; linarith]
  calc |((⌊u⌋₊ : ℕ) : ℝ) + 0.5 - u| * (360 / m) ≤ (1 / 2) * (360 / m) := by
        apply mul_le_mul_of_nonneg_right habs (by positivity)
    _ = 180 / m := by ring

/-! ### Error paths of the query operations -/

lemma lonlat2bin_lon_error (g : Isin) (lon lat : List ℝ) (x : ℝ) (hx : x ∈ lon)
    (h : ¬(-180 ≤ x ∧ x ≤ 180)) :
    g.lonlat2bin lon lat = .error (.lonRange MIN_LON MAX_LON) := by
  unfold Isin.lonlat2bin
  rw [if_pos (ivwb_eq_false lon MIN_LON MAX_LON x hx (by unfold MIN_LON MAX_LON; exact h))]

lemma lonlat2bin_lat_error (g : Isin) (lon lat : List ℝ)
    (hlon : ∀ x ∈ lon, -180 ≤ x ∧ x ≤ 180) (y : ℝ) (hy : y ∈ lat)
    (h : ¬(-90 ≤ y ∧ y ≤ 90)) :
    g.lonlat2bin lon lat = .error (.latRange MIN_LAT MAX_LAT) := by
  unfold Isin.lonlat2bin
  rw [if_neg (ivwb_ne_false _ _ _ ((ivwb_iff _ _ _).mpr (by
    unfold MIN_LON MAX_LON
    exact hlon)))]
  rw [if_pos (ivwb_eq_false lat MIN_LAT MAX_LAT y hy (by unfold MIN_LAT MAX_LAT; exact h))]

lemma lonlat2bin_error_of_bad_lat (g : Isin) (lon lat : List ℝ) (y : ℝ) (hy : y ∈ lat)
    (h : ¬(-90 ≤ y ∧ y ≤ 90)) : ∃ e, g.lonlat2bin lon lat = .error e := by
  by_cases hlon : is_vector_within_bounds lon MIN_LON MAX_LON = false
  · refine ⟨.lonRange MIN_LON MAX_LON, ?_⟩
    unfold Isin.lonlat2bin
    rw [if_pos hlon]
  · refine ⟨.latRange MIN_LAT MAX_LAT, ?_⟩
    unfold Isin.lonlat2bin
    rw [if_neg hlon]
    rw [if_pos (ivwb_eq_false lat MIN_LAT MAX_LAT y hy (by unfold MIN_LAT MAX_LAT; exact h))]

lemma bin2lonlat_range_error (g : Isin) (bins : List Nat) (b : Nat) (hb : b ∈ bins)
    (h : ¬(1 ≤ b ∧ b ≤ g.totbin)) :
    g.bin2lonlat bins = .error (.binRange g.totbin) := by
  unfold Isin.bin2lonlat
  rw [validate_bins_error g bins b hb h]

lemma bin2bounds_range_error (g : Isin) (bins : List Nat) (b : Nat) (hb : b ∈ bins)
    (h : ¬(1 ≤ b ∧ b ≤ g.totbin)) :
    g.bin2bounds bins = .error (.binRange g.totbin) := by
  unfold Isin.bin2bounds
  rw [validate_bins_error g bins b hb h]

lemma new_custom_zero : Isin.new (Satellite.Custom 0) = none := by
  have hbig : max 1 0 ≤ wsub 0 1 := by
    unfold wsub
    rw [usize_val]
    omega
  have hget : (basebinList 0)[wsub 0 1]? = none := basebinList_get_none 0 _ hbig
  simp only [Isin.new, Satellite.num_latitude_rows, hget]

/-! ### Claim theorems -/

/-- C1 counterexample: at latitude exactly 90 the clamp does not protect the
row: `lat2row` yields row `numRows` and `lonlat2bin` panics indexing
`numbin[numRows]`, so the claim that every pair with latitude in `[-90, 90]`
yields a bin id is false on the Modis table. -/
theorem C1_counterexample :
    Isin.new Satellite.Modis = some (mkTable 4320) ∧
    (mkTable 4320).lonlat2bin [0] [90] = .error Err.crash := by
  constructor
  · exact new_eq_mkTable Satellite.Modis (by norm_num [Satellite.num_latitude_rows])
      (by rw [usize_val]; norm_num [Satellite.num_latitude_rows])
  · rw [lonlat2bin_go_eq (mkTable 4320) [0] [90]
      (by intro x hx; rw [List.mem_singleton] at hx; subst hx; norm_num)
      (by intro y hy; rw [List.mem_singleton] at hy; subst hy; norm_num)]
    have hrange : List.range ([(90:ℝ)] : List ℝ).length = [0] := by
      rw [List.length_singleton]
      decide
    rw [hrange, Isin.lonlat2binGo]
    have hla : idx ([(90:ℝ)] : List ℝ) 0 = .ok 90 := idx_eq _ _ _ rfl
    have hl2r : (mkTable 4320).lat2row 90 = .ok 4320 := by
      have h := lat2row_ok (mkTable 4320) 90 (by norm_num) (by norm_num)
      rw [mkTable_numrows] at h
      rw [h, floor_lat_90]
    have hlo : idx ([(0:ℝ)] : List ℝ) 0 = .ok 0 := idx_eq _ _ _ rfl
    have hm : idx (mkTable 4320).numbin 4320 = .error .crash := by
      rw [mkTable_numbin]
      exact idx_none _ _ (numbinList_get_none 4320 4320 (le_refl _))
    simp only [hla, hl2r, hlo, hm]

/-- C1 (amended): for equal-length inputs with every longitude in
`[-180, 180]` and every latitude in `[-90, 90)`, `lonlat2bin` always selects
a valid row, never panics, and returns one valid bin id per pair; the
latitude = 90 boundary is excluded because there the row index equals
`numRows` and the lookup is out of bounds. -/
theorem C1_lonlat2bin_row_safe (n : Nat) (hn : 1 ≤ n) (lon lat : List ℝ)
    (hlen : lon.length = lat.length)
    (hlon : ∀ x ∈ lon, -180 ≤ x ∧ x ≤ 180)
    (hlat : ∀ y ∈ lat, -90 ≤ y ∧ y < 90) :
    ∃ bs, (mkTable n).lonlat2bin lon lat = .ok bs ∧ bs.length = lat.length ∧
      ∀ b ∈ bs, 1 ≤ b ∧ b ≤ (mkTable n).totbin :=
  lonlat2bin_ok_shape n hn lon lat hlen hlon hlat

/-- C1 witness: the amended theorem applied to a concrete pair on an 18-row
grid, including the clamped boundary longitude 180. -/
theorem C1_lonlat2bin_row_safe_witness :
    (1 : Nat) ≤ 18 ∧
    ∃ bs, (mkTable 18).lonlat2bin [180] [89] = .ok bs ∧
      bs.length = ([(89 : ℝ)] : List ℝ).length ∧
      ∀ b ∈ bs, 1 ≤ b ∧ b ≤ (mkTable 18).totbin :=
  ⟨by norm_num,
   C1_lonlat2bin_row_safe 18 (by norm_num) [180] [89] rfl
     (by intro x hx; rw [List.mem_singleton] at hx; subst hx; norm_num)
     (by intro y hy; rw [List.mem_singleton] at hy; subst hy; norm_num)⟩

/-- C2 counterexample: grid construction with row count 0 does not return a
typed configuration error — it panics (out-of-bounds index computing
`totbin` after the empty loop), modelled as `none`; there is no error-return
channel in the constructor at all. -/
theorem C2_counterexample : Isin.new (Satellite.Custom 0) = none :=
  new_custom_zero

/-- C2 (amended): construction with row count 0 produces no table — it
panics rather than returning a typed ConfigError — and for every positive
row count in `usize` range construction produces the complete table, so no
partial table is ever observable. -/
theorem C2_construction_atomic :
    Isin.new (Satellite.Custom 0) = none ∧
    ∀ n : Nat, 1 ≤ n → n ≤ USIZE → Isin.new (Satellite.Custom n) = some (mkTable n) :=
  ⟨new_custom_zero, fun n hn hw => new_eq_mkTable (Satellite.Custom n) hn hw⟩

/-- C2 witness: the amended theorem applied at row count 18. -/
theorem C2_construction_atomic_witness :
    Isin.new (Satellite.Custom 0) = none ∧
    (1 : Nat) ≤ 18 ∧ (18 : Nat) ≤ USIZE ∧
    Isin.new (Satellite.Custom 18) = some (mkTable 18) :=
  ⟨C2_construction_atomic.1,
   by norm_num,
   by rw [usize_val]; norm_num,
   C2_construction_atomic.2 18 (by norm_num) (by rw [usize_val]; norm_num)⟩

/-- C5: `lat2row` computes `floor((90 + latitude) * numRows / 180)` for every
in-range latitude, and on the Modis table (`numRows = 4320`) maps `0` to
`2160 = numRows / 2`, `-90` to `0`, and `90` to `4320 = numRows` (one past
the last valid row index). -/
theorem C5_lat2row_formula :
    (∀ (n : Nat) (lat : ℝ), -90 ≤ lat → lat ≤ 90 →
      (mkTable n).lat2row lat = .ok ⌊(90 + lat) * (n : ℝ) / 180⌋₊) ∧
    (mkTable 4320).lat2row 0 = .ok (4320 / 2) ∧
    (mkTable 4320).lat2row (-90) = .ok 0 ∧
    (mkTable 4320).lat2row 90 = .ok 4320 := by
  have hgen : ∀ (n : Nat) (lat : ℝ), -90 ≤ lat → lat ≤ 90 →
      (mkTable n).lat2row lat = .ok ⌊(90 + lat) * (n : ℝ) / 180⌋₊ := by
    intro n lat h1 h2
    have h := lat2row_ok (mkTable n) lat h1 h2
    rwa [mkTable_numrows] at h
  refine ⟨hgen, ?_, ?_, ?_⟩
  · rw [hgen 4320 0 (by norm_num) (by norm_num)]
    have hv : (90 + (0:ℝ)) * ((4320 : Nat) : ℝ) / 180 = ((2160 : Nat) : ℝ) := by
      push_cast
      norm_num
    rw [hv, Nat.floor_natCast]
  · rw [hgen 4320 (-90) (by norm_num) (by norm_num)]
    have hv : (90 + (-90:ℝ)) * ((4320 : Nat) : ℝ) / 180 = ((0 : Nat) : ℝ) := by
      push_cast
      norm_num
    rw [hv, Nat.floor_natCast]
  · rw [hgen 4320 90 (by norm_num) (by norm_num)]
    rw [floor_lat_90]

/-- C5 witness: the universal formula of the theorem applied at latitude 45
on the Modis table. -/
theorem C5_lat2row_formula_witness :
    (-90 ≤ (45 : ℝ) ∧ (45 : ℝ) ≤ 90) ∧
    (mkTable 4320).lat2row 45 = .ok ⌊(90 + (45 : ℝ)) * ((4320 : Nat) : ℝ) / 180⌋₊ :=
  ⟨⟨by norm_num, by norm_num⟩,
   C5_lat2row_formula.1 4320 45 (by norm_num) (by norm_num)⟩

/-- C7: the query operations of the Modis table validate eagerly and fail the
whole call: `lat2row` rejects 91 and -91 with the latitude bounds; a batch
containing longitude 181 or -181 makes `lonlat2bin` return the longitude
range error; a batch containing latitude 91 or -91 makes `lonlat2bin` return
an error (the latitude range error whenever the longitudes are in range);
and a batch containing bin id 0 or `totbin + 1` makes `bin2lonlat` and
`bin2bounds` return the bin range error naming `totbin` — never a partial
output vector. -/
theorem C7_eager_validation :
    (∀ lat : ℝ, lat = 91 ∨ lat = -91 →
      (mkTable 4320).lat2row lat = .error (.latValue lat (-90) 90)) ∧
    (∀ lon lat : List ℝ, ((181 : ℝ) ∈ lon ∨ (-181 : ℝ) ∈ lon) →
      (mkTable 4320).lonlat2bin lon lat = .error (.lonRange (-180) 180)) ∧
    (∀ lon lat : List ℝ, ((91 : ℝ) ∈ lat ∨ (-91 : ℝ) ∈ lat) →
      ∃ e, (mkTable 4320).lonlat2bin lon lat = .error e) ∧
    (∀ lon lat : List ℝ, ((91 : ℝ) ∈ lat ∨ (-91 : ℝ) ∈ lat) →
      (∀ x ∈ lon, -180 ≤ x ∧ x ≤ 180) →
      (mkTable 4320).lonlat2bin lon lat = .error (.latRange (-90) 90)) ∧
    (∀ bins : List Nat, (0 ∈ bins ∨ (mkTable 4320).totbin + 1 ∈ bins) →
      (mkTable 4320).bin2lonlat bins = .error (.binRange (mkTable 4320).totbin) ∧
      (mkTable 4320).bin2bounds bins = .error (.binRange (mkTable 4320).totbin)) := by
  refine ⟨?_, ?_, ?_, ?_, ?_⟩
  · intro lat hl
    apply lat2row_error
    rcases hl with h | h <;> subst h
    · intro hcon
      nlinarith [hcon.2]
    · intro hcon
      nlinarith [hcon.1]
  · intro lon lat hl
    rcases hl with h | h
    · exact lonlat2bin_lon_error _ lon lat 181 h (by intro hcon; nlinarith [hcon.2])
    · exact lonlat2bin_lon_error _ lon lat (-181) h (by intro hcon; nlinarith [hcon.1])
  · intro lon lat hl
    rcases hl with h | h
    · exact lonlat2bin_error_of_bad_lat _ lon lat 91 h (by intro hcon; nlinarith [hcon.2])
    · exact lonlat2bin_error_of_bad_lat _ lon lat (-91) h (by intro hcon; nlinarith [hcon.1])
  · intro lon lat hl hlon
    rcases hl with h | h
    · exact lonlat2bin_lat_error _ lon lat hlon 91 h (by intro hcon; nlinarith [hcon.2])
    · exact lonlat2bin_lat_error _ lon lat hlon (-91) h (by intro hcon; nlinarith [hcon.1])
  · intro bins hb
    rcases hb with h | h
    · exact ⟨bin2lonlat_range_error _ bins 0 h (by omega),
             bin2bounds_range_error _ bins 0 h (by omega)⟩
    · exact ⟨bin2lonlat_range_error _ bins _ h (by omega),
             bin2bounds_range_error _ bins _ h (by omega)⟩

/-- C7 witness: the rejection theorem applied to concrete singleton batches
on the Modis table. -/
theorem C7_eager_validation_witness :
    (mkTable 4320).lat2row 91 = .error (.latValue 91 (-90) 90) ∧
    (mkTable 4320).lonlat2bin [181] [0] = .error (.lonRange (-180) 180) ∧
    (∃ e, (mkTable 4320).lonlat2bin [0] [91] = .error e) ∧
    (mkTable 4320).lonlat2bin [0] [-91] = .error (.latRange (-90) 90) ∧
    ((mkTable 4320).bin2lonlat [0] = .error (.binRange (mkTable 4320).totbin) ∧
     (mkTable 4320).bin2bounds [0] = .error (.binRange (mkTable 4320).totbin)) ∧
    ((mkTable 4320).bin2lonlat [(mkTable 4320).totbin + 1] =
        .error (.binRange (mkTable 4320).totbin) ∧
     (mkTable 4320).bin2bounds [(mkTable 4320).totbin + 1] =
        .error (.binRange (mkTable 4320).totbin)) :=
  ⟨C7_eager_validation.1 91 (Or.inl rfl),
   C7_eager_validation.2.1 [181] [0] (Or.inl (List.mem_singleton.mpr rfl)),
   C7_eager_validation.2.2.1 [0] [91] (Or.inl (List.mem_singleton.mpr rfl)),
   C7_eager_validation.2.2.2.1 [0] [-91] (Or.inr (List.mem_singleton.mpr rfl))
     (by intro x hx; rw [List.mem_singleton] at hx; subst hx; norm_num),
   C7_eager_validation.2.2.2.2 [0] (Or.inl (List.mem_singleton.mpr rfl)),
   C7_eager_validation.2.2.2.2 [(mkTable 4320).totbin + 1]
     (Or.inr (List.mem_singleton.mpr rfl))⟩

/-- C3: for every positive row count the constructed table satisfies the row
partition invariant: `basebin[0] = 1`, the base-bin recurrence, every row has
at least one bin (so `basebin` is strictly increasing), `totbin` is
`basebin[numrows-1] + numbin[numrows-1] - 1`, and every bin id in
`[1, totbin]` lies in exactly one row. -/
theorem C3_row_partition (n : Nat) (hn : 1 ≤ n) (hw : n ≤ USIZE) :
    Isin.new (Satellite.Custom n) = some (mkTable n) ∧
    (mkTable n).basebin[0]? = some 1 ∧
    (∀ r, r + 1 < n → ∃ bb nb, (mkTable n).basebin[r]? = some bb ∧
      (mkTable n).numbin[r]? = some nb ∧ (mkTable n).basebin[r + 1]? = some (bb + nb)) ∧
    (∀ r, r < n → ∃ nb, (mkTable n).numbin[r]? = some nb ∧ 1 ≤ nb) ∧
    (∀ r s, r < s → s < n → ∃ x y, (mkTable n).basebin[r]? = some x ∧
      (mkTable n).basebin[s]? = some y ∧ x < y) ∧
    (∃ bb nb, (mkTable n).basebin[n - 1]? = some bb ∧
      (mkTable n).numbin[n - 1]? = some nb ∧ (mkTable n).totbin = bb + nb - 1) ∧
    (∀ b, 1 ≤ b → b ≤ (mkTable n).totbin →
      ∃ r, (r < n ∧ ∃ bb nb, (mkTable n).basebin[r]? = some bb ∧
          (mkTable n).numbin[r]? = some nb ∧ bb ≤ b ∧ b < bb + nb) ∧
        ∀ s, (s < n ∧ ∃ bb nb, (mkTable n).basebin[s]? = some bb ∧
          (mkTable n).numbin[s]? = some nb ∧ bb ≤ b ∧ b < bb + nb) → s = r) := by
  refine ⟨new_eq_mkTable (Satellite.Custom n) hn hw, ?_, ?_, ?_, ?_, ?_, ?_⟩
  · rw [mkTable_basebin, basebinList_get n 0 (by omega)]
    rfl
  · intro r hr
    refine ⟨basebinVal n r, rowNum n r, ?_, ?_, ?_⟩
    · rw [mkTable_basebin, basebinList_get n r (by omega)]
    · rw [mkTable_numbin, numbinList_get n r (by omega)]
    · rw [mkTable_basebin, basebinList_get n (r + 1) (by omega)]
      rfl
  · intro r hr
    exact ⟨rowNum n r, by rw [mkTable_numbin, numbinList_get n r hr],
      rowNum_pos n r hn hr⟩
  · intro r s hrs hs
    refine ⟨basebinVal n r, basebinVal n s, ?_, ?_, basebinVal_lt n hn hrs (by omega)⟩
    · rw [mkTable_basebin, basebinList_get n r (by omega)]
    · rw [mkTable_basebin, basebinList_get n s (by omega)]
  · refine ⟨basebinVal n (n - 1), rowNum n (n - 1), ?_, ?_, ?_⟩
    · rw [mkTable_basebin, basebinList_get n (n - 1) (by omega)]
    · rw [mkTable_numbin, numbinList_get n (n - 1) (by omega)]
    · rw [mkTable_totbin]
      have hstep : basebinVal n n = basebinVal n (n - 1) + rowNum n (n - 1) := by
        have h : n = n - 1 + 1 := by omega
        nth_rewrite 2 [h]
        rfl
      omega
  · intro b hb1 hb2
    obtain ⟨r, hr, h1, h2⟩ := valid_bracket n b hn hb1 hb2
    refine ⟨r, ⟨hr, basebinVal n r, rowNum n r, ?_, ?_, h1, h2⟩, ?_⟩
    · rw [mkTable_basebin, basebinList_get n r (by omega)]
    · rw [mkTable_numbin, numbinList_get n r (by omega)]
    · rintro s ⟨hs, bb2, nb2, hget1, hget2, h3, h4⟩
      rw [mkTable_basebin, basebinList_get n s (by omega)] at hget1
      rw [mkTable_numbin, numbinList_get n s hs] at hget2
      have e1 : basebinVal n s = bb2 := by injection hget1
      have e2 : rowNum n s = nb2 := by injection hget2
      apply bracket_unique n b hn hs hr
      · omega
      · show b < basebinVal n s + rowNum n s
        omega
      · exact h1
      · exact h2

/-- C3 witness: the partition theorem applied to the 18-row grid. -/
theorem C3_row_partition_witness :
    ((1 : Nat) ≤ 18 ∧ (18 : Nat) ≤ USIZE) ∧
    Isin.new (Satellite.Custom 18) = some (mkTable 18) ∧
    (mkTable 18).basebin[0]? = some 1 :=
  ⟨⟨by norm_num, by rw [usize_val]; norm_num⟩,
   (C3_row_partition 18 (by norm_num) (by rw [usize_val]; norm_num)).1,
   (C3_row_partition 18 (by norm_num) (by rw [usize_val]; norm_num)).2.1⟩

/-- C8: on the same table, for every valid bin vector, the binary-search row
lookup of `isin.rs` and the linear-scan row lookup of `lib.rs` select the
same row, and the two `bin2lonlat` implementations produce identical
longitude/latitude output (the `lib.rs` variant succeeding rather than
panicking). -/
theorem C8_row_lookup_equiv (n : Nat) (hn : 1 ≤ n) (hw : n ≤ USIZE)
    (bins : List Nat) (hvalid : ∀ b ∈ bins, 1 ≤ b ∧ b ≤ (mkTable n).totbin) :
    (∀ b ∈ bins, ∃ r, bsearchRow (mkTable n).basebin b = .ok r ∧
      scanRow (mkTable n).basebin b (wsub (mkTable n).numrows 1) = some r) ∧
    ∃ res, (mkTable n).bin2lonlat bins = .ok res ∧
      LibBin2lonlat (mkTable n) bins = some res := by
  constructor
  · intro b hb
    obtain ⟨hb1, hb2⟩ := hvalid b hb
    obtain ⟨r, hr, h1, h2⟩ := valid_bracket n b hn hb1 hb2
    refine ⟨r, ?_, ?_⟩
    · rw [mkTable_basebin]
      exact bsearchRow_ok n b r hn hr h1 h2
    · rw [mkTable_basebin, mkTable_numrows, wsub_one n hn hw]
      exact scanRow_finds n b hn hr h1 h2 (n - 1) (by omega) (by omega)
  · obtain ⟨res, hres, hlib⟩ := go_lib_agree n hn hw bins hvalid
    refine ⟨res, ?_, ?_⟩
    · rw [bin2lonlat_of_go _ _ (validate_bins_ok _ _ hvalid)]
      exact hres
    · rw [lib_bin2lonlat_eq n hn bins hvalid]
      exact hlib

/-- C8 witness: the equivalence theorem applied to bin 1 of the 18-row
grid. -/
theorem C8_row_lookup_equiv_witness :
    ((1 : Nat) ≤ 18 ∧ (18 : Nat) ≤ USIZE) ∧
    (∀ b ∈ ([1] : List Nat), ∃ r, bsearchRow (mkTable 18).basebin b = .ok r ∧
      scanRow (mkTable 18).basebin b (wsub (mkTable 18).numrows 1) = some r) ∧
    ∃ res, (mkTable 18).bin2lonlat [1] = .ok res ∧
      LibBin2lonlat (mkTable 18) [1] = some res := by
  have hvalid : ∀ b ∈ ([1] : List Nat), 1 ≤ b ∧ b ≤ (mkTable 18).totbin := by
    intro b hb
    rw [List.mem_singleton] at hb
    subst hb
    exact ⟨le_refl 1, one_le_totbin 18 (by norm_num)⟩
  obtain ⟨ha, hb⟩ :=
    C8_row_lookup_equiv 18 (by norm_num) (by rw [usize_val]; norm_num) [1] hvalid
  exact ⟨⟨by norm_num, by rw [usize_val]; norm_num⟩, ha, hb⟩

/-- C9: for every valid bin id, `bin2bounds` returns the tuple
`(north, south, west, east)` in that order, with `north`/`south` the row
latitude plus/minus `90/numrows`, `west`/`east` the bin center longitude
minus/plus `180/numbin[row]`, and `north > south`, `east > west`. -/
theorem C9_bin2bounds_shape (n : Nat) (hn : 1 ≤ n) (b : Nat) (hb1 : 1 ≤ b)
    (hb2 : b ≤ (mkTable n).totbin) :
    ∃ row la bb m,
      bsearchRow (mkTable n).basebin b = .ok row ∧
      (mkTable n).latbin[row]? = some la ∧
      (mkTable n).basebin[row]? = some bb ∧
      (mkTable n).numbin[row]? = some m ∧
      (mkTable n).bin2bounds [b] =
        .ok [(la + 90 / ((mkTable n).numrows : ℝ),
              la - 90 / ((mkTable n).numrows : ℝ),
              (360 * ((b : ℝ) - (bb : ℝ) + 0.5) / (m : ℝ) - 180) - 180 / (m : ℝ),
              (360 * ((b : ℝ) - (bb : ℝ) + 0.5) / (m : ℝ) - 180) + 180 / (m : ℝ))] ∧
      la - 90 / ((mkTable n).numrows : ℝ) < la + 90 / ((mkTable n).numrows : ℝ) ∧
      (360 * ((b : ℝ) - (bb : ℝ) + 0.5) / (m : ℝ) - 180) - 180 / (m : ℝ) <
        (360 * ((b : ℝ) - (bb : ℝ) + 0.5) / (m : ℝ) - 180) + 180 / (m : ℝ) := by
  obtain ⟨r, hr, h1, h2⟩ := valid_bracket n b hn hb1 hb2
  have hm := rowNum_pos n r hn hr
  have hval : (mkTable n).validate_bins [b] = .ok () := by
    apply validate_bins_ok
    intro x hx
    rw [List.mem_singleton] at hx
    subst hx
    exact ⟨hb1, hb2⟩
  have hgo := bin2boundsGo_cons n hn b r [] [] hr h1 h2 rfl
  refine ⟨r, rowLat n r, basebinVal n r, rowNum n r, ?_, ?_, ?_, ?_, ?_, ?_, ?_⟩
  · rw [mkTable_basebin]
    exact bsearchRow_ok n b r hn hr h1 h2
  · rw [mkTable_latbin]
    exact latbinList_get n r hr
  · rw [mkTable_basebin]
    exact basebinList_get n r (by omega)
  · rw [mkTable_numbin]
    exact numbinList_get n r hr
  · rw [bin2bounds_of_go _ _ hval, hgo, mkTable_numrows]
  · rw [mkTable_numrows]
    have hnpos : (0 : ℝ) < n := by exact_mod_cast hn
    have hd : (0 : ℝ) < 90 / n := by positivity
    linarith
  · have hmpos : (0 : ℝ) < (rowNum n r : ℝ) := by exact_mod_cast hm
    have hd : (0 : ℝ) < 180 / (rowNum n r : ℝ) := by positivity
    linarith

/-- C9 witness: the bounds theorem applied to bin 1 of the 18-row grid. -/
theorem C9_bin2bounds_shape_witness :
    ((1 : Nat) ≤ 18 ∧ (1 : Nat) ≤ 1 ∧ 1 ≤ (mkTable 18).totbin) ∧
    ∃ row la bb m,
      bsearchRow (mkTable 18).basebin 1 = .ok row ∧
      (mkTable 18).latbin[row]? = some la ∧
      (mkTable 18).basebin[row]? = some bb ∧
      (mkTable 18).numbin[row]? = some m ∧
      (mkTable 18).bin2bounds [1] =
        .ok [(la + 90 / ((mkTable 18).numrows : ℝ),
              la - 90 / ((mkTable 18).numrows : ℝ),
              (360 * ((1 : ℝ) - (bb : ℝ) + 0.5) / (m : ℝ) - 180) - 180 / (m : ℝ),
              (360 * ((1 : ℝ) - (bb : ℝ) + 0.5) / (m : ℝ) - 180) + 180 / (m : ℝ))] ∧
      la - 90 / ((mkTable 18).numrows : ℝ) < la + 90 / ((mkTable 18).numrows : ℝ) ∧
      (360 * ((1 : ℝ) - (bb : ℝ) + 0.5) / (m : ℝ) - 180) - 180 / (m : ℝ) <
        (360 * ((1 : ℝ) - (bb : ℝ) + 0.5) / (m : ℝ) - 180) + 180 / (m : ℝ) := by
  have htot : 1 ≤ (mkTable 18).totbin := one_le_totbin 18 (by norm_num)
  have h := C9_bin2bounds_shape 18 (by norm_num) 1 (le_refl 1) htot
  have hcast : ((1 : Nat) : ℝ) = (1 : ℝ) := Nat.cast_one
  rw [hcast] at h
  exact ⟨⟨by norm_num, le_refl 1, htot⟩, h⟩

/-- C10: for every vector of valid bin ids, `bin2lonlat` and `bin2bounds`
succeed with one output per input (no panic): the binary search never yields
insertion point 0 (so `r - 1` cannot underflow) and the `bin_val < 1` clamp
in `bin2lonlat` is unreachable after validation. -/
theorem C10_bin_ops_total (n : Nat) (hn : 1 ≤ n) (bins : List Nat)
    (hvalid : ∀ b ∈ bins, 1 ≤ b ∧ b ≤ (mkTable n).totbin) :
    (∃ v, (mkTable n).bin2lonlat bins = .ok v ∧ v.length = bins.length) ∧
    (∃ w, (mkTable n).bin2bounds bins = .ok w ∧ w.length = bins.length) ∧
    (∀ b ∈ bins, bsearch (mkTable n).basebin b ≠ .error 0) ∧
    (∀ b ∈ bins, (if b < 1 then 1 else b) = b) := by
  have hval : (mkTable n).validate_bins bins = .ok () := validate_bins_ok _ _ hvalid
  refine ⟨?_, ?_, ?_, ?_⟩
  · obtain ⟨v, hv, hlen⟩ := bin2lonlatGo_total n hn bins hvalid
    refine ⟨v, ?_, hlen⟩
    rw [bin2lonlat_of_go _ _ hval]
    exact hv
  · obtain ⟨w, hw2, hlen⟩ := bin2boundsGo_total n hn bins hvalid
    refine ⟨w, ?_, hlen⟩
    rw [bin2bounds_of_go _ _ hval]
    exact hw2
  · intro b hb
    obtain ⟨hb1, hb2⟩ := hvalid b hb
    obtain ⟨r, hr, h1, h2⟩ := valid_bracket n b hn hb1 hb2
    rw [mkTable_basebin]
    exact bsearch_of_row _ b r (bsearchRow_ok n b r hn hr h1 h2)
  · intro b hb
    exact if_neg (by obtain ⟨h1, _⟩ := hvalid b hb; omega)

/-- C10 witness: totality applied to the singleton batch `[1]` on the 18-row
grid. -/
theorem C10_bin_ops_total_witness :
    ((1 : Nat) ≤ 18) ∧
    (∃ v, (mkTable 18).bin2lonlat [1] = .ok v ∧ v.length = ([1] : List Nat).length) ∧
    (∃ w, (mkTable 18).bin2bounds [1] = .ok w ∧ w.length = ([1] : List Nat).length) ∧
    (∀ b ∈ ([1] : List Nat), bsearch (mkTable 18).basebin b ≠ .error 0) ∧
    (∀ b ∈ ([1] : List Nat), (if b < 1 then 1 else b) = b) := by
  have hvalid : ∀ b ∈ ([1] : List Nat), 1 ≤ b ∧ b ≤ (mkTable 18).totbin := by
    intro b hb
    rw [List.mem_singleton] at hb
    subst hb
    exact ⟨le_refl 1, one_le_totbin 18 (by norm_num)⟩
  obtain ⟨h1, h2, h3, h4⟩ := C10_bin_ops_total 18 (by norm_num) [1] hvalid
  exact ⟨by norm_num, h1, h2, h3, h4⟩

/-- C4 counterexample: the claimed round trip includes latitude 90, but at
latitude exactly 90 `lonlat2bin` panics (row `numRows` is out of bounds), so
no bin id is produced and no round trip is possible there. -/
theorem C4_counterexample :
    (mkTable 2160).lonlat2bin [10] [90] = .error Err.crash := by
  rw [lonlat2bin_go_eq (mkTable 2160) [10] [90]
    (by intro x hx; rw [List.mem_singleton] at hx; subst hx; norm_num)
    (by intro y hy; rw [List.mem_singleton] at hy; subst hy; norm_num)]
  have hrange : List.range ([(90:ℝ)] : List ℝ).length = [0] := by
    rw [List.length_singleton]
    decide
  rw [hrange, Isin.lonlat2binGo]
  have hla : idx ([(90:ℝ)] : List ℝ) 0 = .ok 90 := idx_eq _ _ _ rfl
  have hl2r : (mkTable 2160).lat2row 90 = .ok 2160 := by
    have h := lat2row_ok (mkTable 2160) 90 (by norm_num) (by norm_num)
    rw [mkTable_numrows] at h
    rw [h, floor_lat_90]
  have hlo : idx ([(10:ℝ)] : List ℝ) 0 = .ok 10 := idx_eq _ _ _ rfl
  have hm : idx (mkTable 2160).numbin 2160 = .error .crash := by
    rw [mkTable_numbin]
    exact idx_none _ _ (numbinList_get_none 2160 2160 (le_refl _))
  simp only [hla, hl2r, hlo, hm]

/-- C4 (amended): for longitude in `[-180, 180)` and latitude in `[-90, 90)`,
converting a coordinate to a bin and back yields a coordinate within one bin
half-width (`180/numbin[row]`) in longitude and one bin half-height
(`90/numRows`) in latitude; latitude exactly 90 must be excluded because
there `lonlat2bin` panics instead of producing a bin. -/
theorem C4_round_trip (n : Nat) (hn : 1 ≤ n) (lon lat : ℝ)
    (hlon1 : -180 ≤ lon) (hlon2 : lon < 180)
    (hlat1 : -90 ≤ lat) (hlat2 : lat < 90) :
    ∃ b row m lon2 lat2,
      (mkTable n).lat2row lat = .ok row ∧
      (mkTable n).numbin[row]? = some m ∧
      (mkTable n).lonlat2bin [lon] [lat] = .ok [b] ∧
      (mkTable n).bin2lonlat [b] = .ok [(lon2, lat2)] ∧
      |lon2 - lon| ≤ 180 / (m : ℝ) ∧ |lat2 - lat| ≤ 90 / (n : ℝ) := by
  have hrow : ⌊(90 + lat) * (n : ℝ) / 180⌋₊ < n := floor_lat_lt n hn lat hlat1 hlat2
  set row := ⌊(90 + lat) * (n : ℝ) / 180⌋₊ with hrowdef
  have hm1 : 1 ≤ rowNum n row := rowNum_pos n row hn hrow
  have hcol : ⌊(lon + 180) * ((rowNum n row : ℝ) / 360)⌋₊ < rowNum n row :=
    col_lt (rowNum n row) hm1 lon hlon1 hlon2
  obtain ⟨col2, hcol2lt, hcol2eq, hgo⟩ :=
    lonlat2binGo_cons n hn [lon] [lat] 0 [] lat lon [] row rfl rfl hlat1 hlat2 hrowdef rfl
  have hcol2 : col2 = ⌊(lon + 180) * ((rowNum n row : ℝ) / 360)⌋₊ := hcol2eq hcol
  subst hcol2
  have houter : (mkTable n).lonlat2bin [lon] [lat] =
      .ok [basebinVal n row + ⌊(lon + 180) * ((rowNum n row : ℝ) / 360)⌋₊] := by
    rw [lonlat2bin_go_eq (mkTable n) [lon] [lat]
      (by intro x hx; rw [List.mem_singleton] at hx; subst hx; exact ⟨hlon1, le_of_lt hlon2⟩)
      (by intro y hy; rw [List.mem_singleton] at hy; subst hy; exact ⟨hlat1, le_of_lt hlat2⟩)]
    have hrange : List.range ([lat] : List ℝ).length = [0] := by
      rw [List.length_singleton]
      decide
    rw [hrange]
    exact hgo
  have hb1 : 1 ≤ basebinVal n row + ⌊(lon + 180) * ((rowNum n row : ℝ) / 360)⌋₊ := by
    have := one_le_basebinVal n row
    omega
  have h1 : basebinVal n row ≤ basebinVal n row + ⌊(lon + 180) * ((rowNum n row : ℝ) / 360)⌋₊ :=
    Nat.le_add_right _ _
  have h2 : basebinVal n row + ⌊(lon + 180) * ((rowNum n row : ℝ) / 360)⌋₊ <
      basebinVal n (row + 1) := by
    show _ < basebinVal n row + rowNum n row
    omega
  have hb2 : basebinVal n row + ⌊(lon + 180) * ((rowNum n row : ℝ) / 360)⌋₊ ≤
      (mkTable n).totbin := by
    rw [totbin_iff]
    have hle := basebinVal_le n (show row + 1 ≤ n by omega)
    omega
  have hval : (mkTable n).validate_bins
      [basebinVal n row + ⌊(lon + 180) * ((rowNum n row : ℝ) / 360)⌋₊] = .ok () := by
    apply validate_bins_ok
    intro x hx
    rw [List.mem_singleton] at hx
    subst hx
    exact ⟨hb1, hb2⟩
  have hback := bin2lonlatGo_cons n hn
    (basebinVal n row + ⌊(lon + 180) * ((rowNum n row : ℝ) / 360)⌋₊) row [] []
    hb1 hrow h1 h2 rfl
  have hl2r : (mkTable n).lat2row lat = .ok row := by
    have h := lat2row_ok (mkTable n) lat hlat1 (le_of_lt hlat2)
    rw [mkTable_numrows] at h
    rw [h]
  refine ⟨basebinVal n row + ⌊(lon + 180) * ((rowNum n row : ℝ) / 360)⌋₊,
    row, rowNum n row,
    360 * (((basebinVal n row + ⌊(lon + 180) * ((rowNum n row : ℝ) / 360)⌋₊ : Nat) : ℝ)
      - ((basebinVal n row : Nat) : ℝ) + 0.5) / ((rowNum n row : Nat) : ℝ) - 180,
    rowLat n row, hl2r, ?_, houter, ?_, ?_, ?_⟩
  · rw [mkTable_numbin]
    exact numbinList_get n row hrow
  · rw [bin2lonlat_of_go _ _ hval]
    exact hback
  · have hlonbound := roundtrip_lon (rowNum n row) hm1 lon hlon1 hlon2
    have hcast : ((basebinVal n row + ⌊(lon + 180) * ((rowNum n row : ℝ) / 360)⌋₊ : Nat) : ℝ)
        - ((basebinVal n row : Nat) : ℝ)
        = ((⌊(lon + 180) * ((rowNum n row : ℝ) / 360)⌋₊ : Nat) : ℝ) := by
      push_cast
      ring
    rw [hcast]
    exact hlonbound
  · have hlatbound := roundtrip_lat n hn lat hlat1 hlat2
    rw [← hrowdef] at hlatbound
    exact hlatbound

/-- C4 witness: the amended round-trip theorem applied at the origin on an
18-row grid. -/
theorem C4_round_trip_witness :
    ((1 : Nat) ≤ 18 ∧ -180 ≤ (0:ℝ) ∧ (0:ℝ) < 180 ∧ -90 ≤ (0:ℝ) ∧ (0:ℝ) < 90) ∧
    ∃ b row m lon2 lat2,
      (mkTable 18).lat2row 0 = .ok row ∧
      (mkTable 18).numbin[row]? = some m ∧
      (mkTable 18).lonlat2bin [0] [0] = .ok [b] ∧
      (mkTable 18).bin2lonlat [b] = .ok [(lon2, lat2)] ∧
      |lon2 - 0| ≤ 180 / (m : ℝ) ∧ |lat2 - 0| ≤ 90 / ((18 : Nat) : ℝ) :=
  ⟨⟨by norm_num, by norm_num, by norm_num, by norm_num, by norm_num⟩,
   C4_round_trip 18 (by norm_num) 0 0 (by norm_num) (by norm_num) (by norm_num) (by norm_num)⟩

end L3bin
